import Mathlib

/-!
Verification of the result cache and refresh-coalescing scheduler of the
OC Bus Tracker server (`server.js`).

The embedding models the core as pure state-transition functions:
- JS numbers that matter for control flow are modelled as `Option Int`
  (`Option.none` standing for `NaN`, whose comparisons are all false);
- the entry cache (`cache`) and the pending-refresh map (`pendingByBlock`)
  are association lists over `String` keys;
- the bounded-concurrency job queue (`queue` / `activeWorkers` /
  `drainQueue` / `enqueue`) is a state machine; ghost fields `startedLog`
  and `submitLog` record the order in which jobs start and are submitted;
- asynchronous settlement of a refresh job (the `.then`/`.finally`
  callbacks in `ensureRefresh`) is modelled by explicit transition
  functions `settleSuccess` / `settleFail`, and the `Promise.race` in
  `getFastResult` by a `RaceOutcome` oracle parameter.
-/

/-- A JS number where only integrality matters; `Option.none` models `NaN`
    (e.g. `Number` applied to a non-numeric string). -/
abbrev JSNum := Option Int

/-- JS `Math.max(1, x)`: `NaN` if `x` is `NaN`. -/
def jsMax1 (x : JSNum) : JSNum :=
  match x with
  | Option.none => Option.none
  | Option.some v => Option.some (max 1 v)

/-- JS `<` between a counter and a JS number: any comparison with `NaN`
    is false. -/
def jsLtNat (a : Nat) (x : JSNum) : Bool :=
  match x with
  | Option.none => false
  | Option.some v => (a : Int) < v

/-- `TRACK_CONCURRENCY = Math.max(1, Number(process.env.TRACK_CONCURRENCY || 2))`
    (`server.js` line 14), as a function of the already-coerced numeric value
    of the environment variable (`Option.some 2` when unset). -/
def TRACK_CONCURRENCY (raw : JSNum) : JSNum := jsMax1 raw

/-! ## Association lists (the `Map` objects `cache` and `pendingByBlock`) -/

/-- `Map.get` on an association list. -/
def alookup {γ : Type} : List (String × γ) → String → Option γ
  | [], _ => Option.none
  | (k', v) :: rest, k => if k' = k then Option.some v else alookup rest k

/-- `Map.set` on an association list: overwrite in place, or append. -/
def ainsert {γ : Type} : List (String × γ) → String → γ → List (String × γ)
  | [], k, v => [(k, v)]
  | (k', v') :: rest, k, v =>
      if k' = k then (k, v) :: rest else (k', v') :: ainsert rest k v

/-- `Map.delete` on an association list. -/
def aerase {γ : Type} : List (String × γ) → String → List (String × γ)
  | [], _ => []
  | (k', v) :: rest, k =>
      if k' = k then aerase rest k else (k', v) :: aerase rest k

theorem alookup_ainsert_self {γ : Type} (m : List (String × γ)) (k : String) (v : γ) :
    alookup (ainsert m k v) k = Option.some v := by
  induction m with
  | nil => simp [ainsert, alookup]
  | cons hd tl ih =>
      obtain ⟨k', v'⟩ := hd
      by_cases h : k' = k <;> simp [ainsert, alookup, h, ih]

theorem alookup_ainsert_other {γ : Type} (m : List (String × γ)) (k k' : String) (v : γ)
    (h : k' ≠ k) : alookup (ainsert m k v) k' = alookup m k' := by
  have hne : ¬k = k' := fun e => h e.symm
  induction m with
  | nil => simp [ainsert, alookup, hne]
  | cons hd tl ih =>
      obtain ⟨k0, v0⟩ := hd
      by_cases h0 : k0 = k
      · rw [h0]
        simp [ainsert, alookup, hne]
      · simp only [ainsert, if_neg h0, alookup]
        by_cases h1 : k0 = k' <;> simp [h1, ih]

theorem alookup_aerase_self {γ : Type} (m : List (String × γ)) (k : String) :
    alookup (aerase m k) k = Option.none := by
  induction m with
  | nil => simp [aerase, alookup]
  | cons hd tl ih =>
      obtain ⟨k', v'⟩ := hd
      by_cases h : k' = k <;> simp [aerase, alookup, h, ih]

theorem alookup_aerase_sub {γ : Type} (m : List (String × γ)) (k k' : String) (v : γ)
    (h : alookup (aerase m k) k' = Option.some v) :
    alookup m k' = Option.some v := by
  induction m with
  | nil => simp [aerase, alookup] at h
  | cons hd tl ih =>
      obtain ⟨k0, v0⟩ := hd
      by_cases h0 : k0 = k
      · rw [aerase, if_pos h0] at h
        have htl := ih h
        have hkk : ¬k = k' := by
          intro e
          rw [← e, alookup_aerase_self] at h
          exact Option.noConfusion h
        have hne : ¬k0 = k' := fun e => hkk (h0 ▸ e)
        simp only [alookup, if_neg hne]
        exact htl
      · rw [aerase, if_neg h0] at h
        simp only [alookup] at h ⊢
        by_cases h1 : k0 = k'
        · simpa [h1] using h
        · rw [if_neg h1] at h ⊢
          exact ih h

/-! ## The bounded-concurrency job queue (`server.js` lines 116-136)

`QueueState` carries the two real pieces of state — the FIFO `queue` array
and the `activeWorkers` counter — plus two ghost logs used only to state
ordering properties: `startedLog` (jobs in the order `drainQueue` started
them) and `submitLog` (jobs in the order `enqueue` received them). -/

structure QueueState (β : Type) where
  queue : List β
  activeWorkers : Nat
  startedLog : List β
  submitLog : List β
  deriving Repr, DecidableEq

/-- The body of `drainQueue`'s `while` loop, recursing on the queue.
    Loop state is `(queue, activeWorkers, startedLog)`; `submitLog` is
    untouched by draining. -/
def drainAux {β : Type} (limit : JSNum) :
    List β → Nat → List β → List β → QueueState β
  | [], a, st, sub => ⟨[], a, st, sub⟩
  | j :: rest, a, st, sub =>
      if jsLtNat a limit then drainAux limit rest (a + 1) (st ++ [j]) sub
      else ⟨j :: rest, a, st, sub⟩

/-- `drainQueue` (`server.js` lines 116-129): while `activeWorkers` is below
    the limit and the queue is non-empty, shift the head job, increment the
    counter and start the job. -/
def drainQueue {β : Type} (limit : JSNum) (s : QueueState β) : QueueState β :=
  drainAux limit s.queue s.activeWorkers s.startedLog s.submitLog

/-- `enqueue` (`server.js` lines 131-136): push the job and drain. -/
def enqueue {β : Type} (limit : JSNum) (j : β) (s : QueueState β) : QueueState β :=
  drainQueue limit
    { s with queue := s.queue ++ [j], submitLog := s.submitLog ++ [j] }

/-- The `.finally` of a started job (`server.js` lines 124-127): decrement
    `activeWorkers` and drain again. -/
def settle {β : Type} (limit : JSNum) (s : QueueState β) : QueueState β :=
  drainQueue limit { s with activeWorkers := s.activeWorkers - 1 }

/-- Queue states reachable from the empty initial state by any sequence of
    submissions and job settlements. -/
inductive QReach {β : Type} (limit : JSNum) : QueueState β → Prop where
  | init : QReach limit ⟨[], 0, [], []⟩
  | enqueue (j : β) {s : QueueState β} :
      QReach limit s → QReach limit (enqueue limit j s)
  | settle {s : QueueState β} :
      QReach limit s → QReach limit (settle limit s)

theorem drainAux_active_le {β : Type} (L : Int) (q : List β) (a : Nat)
    (st sub : List β) (h : (a : Int) ≤ L) :
    ((drainAux (Option.some L) q a st sub).activeWorkers : Int) ≤ L := by
  induction q generalizing a st with
  | nil => simpa [drainAux] using h
  | cons j rest ih =>
      by_cases hg : jsLtNat a (Option.some L)
      · have hlt : (a : Int) < L := by simpa [jsLtNat] using hg
        have : ((a + 1 : Nat) : Int) ≤ L := by push_cast; omega
        simpa [drainAux, hg] using ih (a + 1) (st ++ [j]) this
      · simpa [drainAux, hg] using h

theorem drainAux_log {β : Type} (limit : JSNum) (q : List β) (a : Nat)
    (st sub : List β) :
    (drainAux limit q a st sub).startedLog ++ (drainAux limit q a st sub).queue
      = st ++ q ∧ (drainAux limit q a st sub).submitLog = sub := by
  induction q generalizing a st with
  | nil => simp [drainAux]
  | cons j rest ih =>
      by_cases hg : jsLtNat a limit
      · have := ih (a + 1) (st ++ [j])
        simpa [drainAux, hg] using this
      · simp [drainAux, hg]

theorem drainAux_noop {β : Type} (limit : JSNum) (q : List β) (a : Nat)
    (st sub : List β) (h : jsLtNat a limit = false) :
    drainAux limit q a st sub = ⟨q, a, st, sub⟩ := by
  cases q with
  | nil => simp [drainAux]
  | cons j rest => simp [drainAux, h]

theorem drainAux_started_mono {β : Type} (limit : JSNum) (q : List β) (a : Nat)
    (st sub : List β) :
    st.length ≤ (drainAux limit q a st sub).startedLog.length := by
  induction q generalizing a st with
  | nil => simp [drainAux]
  | cons j rest ih =>
      by_cases hg : jsLtNat a limit
      · have := ih (a + 1) (st ++ [j])
        simp only [drainAux, hg, if_true]
        calc st.length ≤ (st ++ [j]).length := by simp
          _ ≤ _ := this
      · simp [drainAux, hg]

/-! ## The Entry Store (`server.js` lines 10-11, 38-58)

`Config` holds the two TTL constants (`CACHE_TTL_MS`, `STALE_TTL_MS`);
`α` is the opaque payload type. -/

structure Config where
  cacheTTL : Nat
  staleTTL : Nat
  deriving Repr, DecidableEq

structure CacheEntry (α : Type) where
  payload : α
  updatedAt : Nat
  freshUntil : Nat
  staleUntil : Nat
  deriving Repr, DecidableEq

abbrev Cache (α : Type) := List (String × CacheEntry α)

/-- The `{state, entry}` value returned by `getCacheState`: the entry is
    present exactly when the state is `fresh` or `stale`. -/
inductive CacheView (α : Type) where
  | fresh (e : CacheEntry α)
  | stale (e : CacheEntry α)
  | noneV
  deriving Repr, DecidableEq

/-- `getCacheState` (`server.js` lines 38-48): classify the entry for
    `block` at time `now`, lazily deleting an expired entry. Returns the
    view and the (possibly shrunk) cache. -/
def getCacheState {α : Type} (now : Nat) (c : Cache α) (block : String) :
    CacheView α × Cache α :=
  match alookup c block with
  | Option.none => (.noneV, c)
  | Option.some e =>
      if e.freshUntil > now then (.fresh e, c)
      else if e.staleUntil > now then (.stale e, c)
      else (.noneV, aerase c block)

/-- `setCache` (`server.js` lines 50-58). -/
def setCache {α : Type} (cfg : Config) (now : Nat) (c : Cache α)
    (block : String) (payload : α) : Cache α :=
  ainsert c block
    ⟨payload, now, now + cfg.cacheTTL, now + cfg.staleTTL⟩

/-! ## The whole-server state and its operations

`SysState` gathers the process-wide mutable state of `server.js`:
the entry cache, the `pendingByBlock` map (each live refresh handle is
identified by a promise id drawn from the counter `nextId`), and the job
queue whose jobs are `(promise id, block)` pairs. -/

structure SysState (α : Type) where
  cache : Cache α
  pending : List (String × Nat)
  qs : QueueState (Nat × String)
  nextId : Nat
  deriving Repr, DecidableEq

def initSys {α : Type} : SysState α := ⟨[], [], ⟨[], 0, [], []⟩, 0⟩

/-- `ensureRefresh` (`server.js` lines 138-154): return the existing
    pending promise for `block` if one exists; otherwise enqueue a new
    refresh job and record its promise in `pendingByBlock`. Returns the
    promise id together with the new state. -/
def ensureRefresh {α : Type} (limit : JSNum) (block : String)
    (s : SysState α) : Nat × SysState α :=
  match alookup s.pending block with
  | Option.some id => (id, s)
  | Option.none =>
      (s.nextId,
       { s with
         qs := enqueue limit (s.nextId, block) s.qs,
         pending := ainsert s.pending block s.nextId,
         nextId := s.nextId + 1 })

/-- Settlement of a successful refresh for `block` at time `now`
    (the `.then`/`.finally` chain in `server.js` lines 143-150 plus the
    queue's own `.finally`, lines 124-127): store the payload, drop the
    pending handle, decrement the worker count and drain. -/
def settleSuccess {α : Type} (cfg : Config) (limit : JSNum) (now : Nat)
    (block : String) (payload : α) (s : SysState α) : SysState α :=
  { s with
    cache := setCache cfg now s.cache block payload,
    pending := aerase s.pending block,
    qs := settle limit s.qs }

/-- Settlement of a failed refresh for `block`: the cache is untouched
    (`setCache` runs only in the success continuation), the pending handle
    is dropped by the `.finally`, the queue decrements and drains. -/
def settleFail {α : Type} (limit : JSNum) (block : String)
    (s : SysState α) : SysState α :=
  { s with
    pending := aerase s.pending block,
    qs := settle limit s.qs }

/-- The result value of `getFastResult` (`server.js` lines 156-203). -/
inductive FastResult (α : Type) where
  | ready (payload : α) (cached stale : Bool) (ageMs : Nat)
  | pendingR (retryAfterMs : Nat)
  deriving Repr, DecidableEq

/-- Oracle for the `Promise.race` on the absent-entry path: either the
    refresh settles first (successfully at time `t`, or with an error
    message), or the `MAX_SYNC_WAIT_MS` deadline elapses first. -/
inductive RaceOutcome (α : Type) where
  | settledOk (t : Nat) (p : α)
  | settledErr (msg : String)
  | deadline
  deriving Repr, DecidableEq

/-- `getFastResult` (`server.js` lines 156-203). `Except` models the
    thrown rejection on the absent-entry path when the refresh fails
    before the deadline. -/
def getFastResult {α : Type} (cfg : Config) (limit : JSNum) (now : Nat)
    (block : String) (race : RaceOutcome α) (s : SysState α) :
    Except String (FastResult α) × SysState α :=
  match getCacheState now s.cache block with
  | (.fresh e, c2) =>
      (.ok (.ready e.payload true false (now - e.updatedAt)),
       { s with cache := c2 })
  | (.stale e, c2) =>
      (.ok (.ready e.payload true true (now - e.updatedAt)),
       (ensureRefresh limit block { s with cache := c2 }).2)
  | (.noneV, c2) =>
      let s2 := (ensureRefresh limit block { s with cache := c2 }).2
      match race with
      | .settledOk t p =>
          (.ok (.ready p false false 0), settleSuccess cfg limit t block p s2)
      | .settledErr msg => (.error msg, settleFail limit block s2)
      | .deadline => (.ok (.pendingR 1200), s2)

/-- The result value of the `/api/result` polling route. -/
inductive PollResult (α : Type) where
  | ready (payload : α) (stale : Bool) (ageMs : Nat)
  | stillProcessing
  | notFound
  deriving Repr, DecidableEq

/-- The `/api/result` handler (`server.js` lines 273-298): read the cache
    (lazy eviction may shrink it); on a miss report whether a refresh
    handle is live; never submit a job or touch `pendingByBlock`. -/
def poll {α : Type} (now : Nat) (block : String) (s : SysState α) :
    PollResult α × SysState α :=
  match getCacheState now s.cache block with
  | (.noneV, c2) =>
      (if (alookup s.pending block).isSome then .stillProcessing else .notFound,
       { s with cache := c2 })
  | (.fresh e, c2) =>
      (.ready e.payload false (now - e.updatedAt), { s with cache := c2 })
  | (.stale e, c2) =>
      (.ready e.payload true (now - e.updatedAt), { s with cache := c2 })

/-- One observable step of the server core. -/
inductive SysStep {α : Type} (cfg : Config) (limit : JSNum) :
    SysState α → SysState α → Prop where
  | fast (now : Nat) (block : String) (race : RaceOutcome α) (s : SysState α) :
      SysStep cfg limit s (getFastResult cfg limit now block race s).2
  | pollStep (now : Nat) (block : String) (s : SysState α) :
      SysStep cfg limit s (poll now block s).2
  | refresh (block : String) (s : SysState α) :
      SysStep cfg limit s (ensureRefresh limit block s).2
  | settleOk (now : Nat) (block : String) (p : α) (s : SysState α) :
      SysStep cfg limit s (settleSuccess cfg limit now block p s)
  | settleErr (block : String) (s : SysState α) :
      SysStep cfg limit s (settleFail limit block s)

/-- Server states reachable from the empty initial state. -/
inductive SysReach {α : Type} (cfg : Config) (limit : JSNum) :
    SysState α → Prop where
  | init : SysReach cfg limit initSys
  | step {s s2 : SysState α} :
      SysReach cfg limit s → SysStep cfg limit s s2 → SysReach cfg limit s2

/-! ## Scheduler lemmas and claims C2, C8, C10 -/

theorem qreach_active_le {β : Type} (L : Int) (hL : 0 ≤ L) {s : QueueState β}
    (h : QReach (Option.some L) s) : (s.activeWorkers : Int) ≤ L := by
  induction h with
  | init => simpa using hL
  | enqueue j hs ih =>
      simp only [enqueue, drainQueue]
      exact drainAux_active_le L _ _ _ _ ih
  | settle hs ih =>
      rename_i s0
      simp only [settle, drainQueue]
      apply drainAux_active_le
      have : ((s0.activeWorkers - 1 : Nat) : Int) ≤ (s0.activeWorkers : Int) := by
        have := Nat.sub_le s0.activeWorkers 1
        exact_mod_cast this
      omega

theorem qreach_log {β : Type} (limit : JSNum) {s : QueueState β}
    (h : QReach limit s) : s.startedLog ++ s.queue = s.submitLog := by
  induction h with
  | init => rfl
  | enqueue j hs ih =>
      rename_i s0
      simp only [enqueue, drainQueue]
      have hl := drainAux_log limit (s0.queue ++ [j]) s0.activeWorkers
        s0.startedLog (s0.submitLog ++ [j])
      rw [hl.1, hl.2, ← List.append_assoc, ih]
  | settle hs ih =>
      rename_i s0
      simp only [settle, drainQueue]
      have hl := drainAux_log limit s0.queue (s0.activeWorkers - 1)
        s0.startedLog s0.submitLog
      rw [hl.1, hl.2, ih]

/-- C2: bounded concurrency — for every sequence of submissions and
    settlements, `activeWorkers` never exceeds the configured limit
    `TRACK_CONCURRENCY`; moreover `drainQueue` is a no-op (starts nothing)
    whenever the active count is not below the limit or the queue is
    empty. -/
theorem bounded_concurrency (c : Int) (s : QueueState Nat)
    (h : QReach (TRACK_CONCURRENCY (Option.some c)) s) :
    (s.activeWorkers : Int) ≤ max 1 c ∧
    (∀ s2 : QueueState Nat,
        jsLtNat s2.activeWorkers (TRACK_CONCURRENCY (Option.some c)) = false
          ∨ s2.queue = [] →
        drainQueue (TRACK_CONCURRENCY (Option.some c)) s2 = s2) := by
  have hTC : TRACK_CONCURRENCY (Option.some c) = Option.some (max 1 c) := rfl
  constructor
  · rw [hTC] at h
    exact qreach_active_le (max 1 c) (by omega) h
  · intro s2 h2
    rcases h2 with h2 | h2
    · unfold drainQueue
      rw [drainAux_noop _ _ _ _ _ h2]
    · unfold drainQueue
      rw [h2]
      simp only [drainAux]
      rw [← h2]

/-- Witness for C2 at a concrete reachable state. -/
theorem bounded_concurrency_witness :
    (((enqueue (TRACK_CONCURRENCY (Option.some 2)) 0
        ⟨[], 0, [], []⟩ : QueueState Nat).activeWorkers : Int)) ≤ max 1 2 :=
  (bounded_concurrency 2 _ (QReach.enqueue 0 QReach.init)).1

/-- C8: FIFO execution order — in every reachable queue state the log of
    started jobs followed by the still-queued jobs is exactly the
    submission log, so jobs start in exactly submission order (the started
    log is always a prefix of the submission log). -/
theorem fifo_start_order (limit : JSNum) (s : QueueState Nat)
    (h : QReach limit s) :
    s.startedLog ++ s.queue = s.submitLog ∧
    ∃ rest, s.submitLog = s.startedLog ++ rest :=
  ⟨qreach_log limit h, s.queue, (qreach_log limit h).symm⟩

/-- Witness for C8 at a concrete reachable state. -/
theorem fifo_start_order_witness :
    (settle (Option.some 1) (enqueue (Option.some 1) 4
        (enqueue (Option.some 1) 3 (⟨[], 0, [], []⟩ : QueueState Nat)))).startedLog
      ++ (settle (Option.some 1) (enqueue (Option.some 1) 4
        (enqueue (Option.some 1) 3 (⟨[], 0, [], []⟩ : QueueState Nat)))).queue
      = (settle (Option.some 1) (enqueue (Option.some 1) 4
        (enqueue (Option.some 1) 3 (⟨[], 0, [], []⟩ : QueueState Nat)))).submitLog :=
  (fifo_start_order (Option.some 1) _
    (QReach.settle (QReach.enqueue 4 (QReach.enqueue 3 QReach.init)))).1

/-- C10 counterexample: a non-numeric concurrency configuration coerces to
    `NaN`; `Math.max(1, NaN)` is `NaN`, the drain guard
    `activeWorkers < NaN` is always false, and so `drainQueue` starts
    nothing even with an idle worker pool and a non-empty queue — the
    submitted job is permanently blocked, contrary to the claim. -/
theorem nan_limit_blocks_jobs :
    TRACK_CONCURRENCY Option.none = Option.none ∧
    drainQueue (TRACK_CONCURRENCY Option.none)
        (⟨[7], 0, [], [7]⟩ : QueueState Nat) = ⟨[7], 0, [], [7]⟩ ∧
    (⟨[7], 0, [], [7]⟩ : QueueState Nat).queue ≠ [] ∧
    (⟨[7], 0, [], [7]⟩ : QueueState Nat).activeWorkers = 0 ∧
    settle (TRACK_CONCURRENCY Option.none)
        (⟨[7], 0, [], [7]⟩ : QueueState Nat) = ⟨[7], 0, [], [7]⟩ := by
  refine ⟨rfl, by decide, by decide, rfl, by decide⟩

/-- C10 (amended): for every numeric configured value `c` the effective
    limit is `max 1 c ≥ 1`, so whenever no job is active and the queue is
    non-empty, `drainQueue` starts at least one job. (For a non-numeric
    value the limit is `NaN` and no job ever starts.) -/
theorem clamped_limit_starts_job (c : Int) (s : QueueState Nat)
    (h0 : s.activeWorkers = 0) (hq : s.queue ≠ []) :
    TRACK_CONCURRENCY (Option.some c) = Option.some (max 1 c) ∧
    s.startedLog.length
      < (drainQueue (TRACK_CONCURRENCY (Option.some c)) s).startedLog.length := by
  refine ⟨rfl, ?_⟩
  obtain ⟨j, rest, hjr⟩ := List.exists_cons_of_ne_nil hq
  unfold drainQueue
  rw [hjr, h0]
  have hg : jsLtNat 0 (TRACK_CONCURRENCY (Option.some c)) = true := by
    simp [jsLtNat, TRACK_CONCURRENCY, jsMax1]
  simp only [drainAux, hg, if_true]
  have := drainAux_started_mono (TRACK_CONCURRENCY (Option.some c)) rest (0 + 1)
    (s.startedLog ++ [j]) s.submitLog
  simp only [List.length_append, List.length_cons, List.length_nil] at this
  omega

/-- Witness for the amended C10 at a concrete input. -/
theorem clamped_limit_starts_job_witness :
    (⟨[5], 0, [], [5]⟩ : QueueState Nat).startedLog.length
      < (drainQueue (TRACK_CONCURRENCY (Option.some 0))
          (⟨[5], 0, [], [5]⟩ : QueueState Nat)).startedLog.length :=
  (clamped_limit_starts_job 0 ⟨[5], 0, [], [5]⟩ rfl (by decide)).2

/-! ## Entry Store lemmas and claims C4, C7 -/

theorem getCacheState_miss {α : Type} {now : Nat} {c : Cache α} {k : String}
    (h : alookup c k = Option.none) :
    getCacheState now c k = (CacheView.noneV, c) := by
  simp [getCacheState, h]

theorem getCacheState_hit_fresh {α : Type} {now : Nat} {c : Cache α} {k : String}
    {e : CacheEntry α} (h : alookup c k = Option.some e)
    (hf : now < e.freshUntil) :
    getCacheState now c k = (CacheView.fresh e, c) := by
  simp [getCacheState, h, hf]

theorem getCacheState_hit_stale {α : Type} {now : Nat} {c : Cache α} {k : String}
    {e : CacheEntry α} (h : alookup c k = Option.some e)
    (hf : e.freshUntil ≤ now) (hs : now < e.staleUntil) :
    getCacheState now c k = (CacheView.stale e, c) := by
  simp [getCacheState, h, hs, Nat.not_lt.2 hf]

theorem getCacheState_hit_expired {α : Type} {now : Nat} {c : Cache α} {k : String}
    {e : CacheEntry α} (h : alookup c k = Option.some e)
    (hs : e.staleUntil ≤ now) (hf : e.freshUntil ≤ now) :
    getCacheState now c k = (CacheView.noneV, aerase c k) := by
  simp [getCacheState, h, Nat.not_lt.2 hf, Nat.not_lt.2 hs]

theorem getCacheState_fresh_inv {α : Type} {now : Nat} {c : Cache α} {k : String}
    {e : CacheEntry α} (h : (getCacheState now c k).1 = CacheView.fresh e) :
    alookup c k = Option.some e ∧ now < e.freshUntil := by
  rcases halo : alookup c k with _ | e0
  · rw [getCacheState_miss halo] at h
    exact absurd h (by simp)
  · rcases Nat.lt_or_ge now e0.freshUntil with hf | hf
    · rw [getCacheState_hit_fresh halo hf] at h
      simp only [CacheView.fresh.injEq] at h
      rw [← h]
      exact ⟨rfl, hf⟩
    · rcases Nat.lt_or_ge now e0.staleUntil with hs | hs
      · rw [getCacheState_hit_stale halo hf hs] at h
        exact absurd h (by simp)
      · rw [getCacheState_hit_expired halo hs hf] at h
        exact absurd h (by simp)

theorem getCacheState_stale_inv {α : Type} {now : Nat} {c : Cache α} {k : String}
    {e : CacheEntry α} (h : (getCacheState now c k).1 = CacheView.stale e) :
    alookup c k = Option.some e ∧ e.freshUntil ≤ now ∧ now < e.staleUntil := by
  rcases halo : alookup c k with _ | e0
  · rw [getCacheState_miss halo] at h
    exact absurd h (by simp)
  · rcases Nat.lt_or_ge now e0.freshUntil with hf | hf
    · rw [getCacheState_hit_fresh halo hf] at h
      exact absurd h (by simp)
    · rcases Nat.lt_or_ge now e0.staleUntil with hs | hs
      · rw [getCacheState_hit_stale halo hf hs] at h
        simp only [CacheView.stale.injEq] at h
        rw [← h]
        exact ⟨rfl, hf, hs⟩
      · rw [getCacheState_hit_expired halo hs hf] at h
        exact absurd h (by simp)

theorem getCacheState_noneV_inv {α : Type} {now : Nat} {c : Cache α} {k : String}
    (h : (getCacheState now c k).1 = CacheView.noneV) :
    alookup c k = Option.none ∨
    ∃ e : CacheEntry α, alookup c k = Option.some e ∧
      e.freshUntil ≤ now ∧ e.staleUntil ≤ now := by
  rcases halo : alookup c k with _ | e0
  · exact Or.inl rfl
  · rcases Nat.lt_or_ge now e0.freshUntil with hf | hf
    · rw [getCacheState_hit_fresh halo hf] at h
      exact absurd h (by simp)
    · rcases Nat.lt_or_ge now e0.staleUntil with hs | hs
      · rw [getCacheState_hit_stale halo hf hs] at h
        exact absurd h (by simp)
      · exact Or.inr ⟨e0, rfl, hf, hs⟩

theorem getCacheState_stale_snd {α : Type} {now : Nat} {c : Cache α} {k : String}
    {e : CacheEntry α} (h : (getCacheState now c k).1 = CacheView.stale e) :
    (getCacheState now c k).2 = c := by
  obtain ⟨halo, hf, hs⟩ := getCacheState_stale_inv h
  rw [getCacheState_hit_stale halo hf hs]

/-- C4: three-state classification with lazy eviction — `getCacheState`
    returns `fresh` exactly when an entry exists and `now < freshUntil`,
    `stale` exactly when an entry exists and
    `freshUntil ≤ now < staleUntil`, and `noneV` otherwise; an expired
    entry is removed as a side effect; and an entry written by `setCache`
    is `fresh` immediately, `stale` after `cacheTTL`, and gone after
    `staleTTL`. -/
theorem classify_three_state {α : Type} (cfg : Config) (now : Nat) (c : Cache α)
    (k : String) (p : α) (t : Nat)
    (h1 : 0 < cfg.cacheTTL) (h2 : cfg.cacheTTL < cfg.staleTTL) :
    (∀ e : CacheEntry α, (getCacheState now c k).1 = CacheView.fresh e ↔
        alookup c k = Option.some e ∧ now < e.freshUntil) ∧
    (∀ e : CacheEntry α, (getCacheState now c k).1 = CacheView.stale e ↔
        alookup c k = Option.some e ∧ e.freshUntil ≤ now ∧ now < e.staleUntil) ∧
    ((getCacheState now c k).1 = CacheView.noneV ↔
        alookup c k = Option.none ∨
        ∃ e : CacheEntry α, alookup c k = Option.some e ∧
          e.freshUntil ≤ now ∧ e.staleUntil ≤ now) ∧
    (∀ e : CacheEntry α, alookup c k = Option.some e → e.staleUntil ≤ now →
        e.freshUntil ≤ e.staleUntil →
        (getCacheState now c k).2 = aerase c k ∧
        alookup (getCacheState now c k).2 k = Option.none) ∧
    ((getCacheState t (setCache cfg t c k p) k).1
        = CacheView.fresh ⟨p, t, t + cfg.cacheTTL, t + cfg.staleTTL⟩) ∧
    ((getCacheState (t + cfg.cacheTTL) (setCache cfg t c k p) k).1
        = CacheView.stale ⟨p, t, t + cfg.cacheTTL, t + cfg.staleTTL⟩) ∧
    ((getCacheState (t + cfg.staleTTL) (setCache cfg t c k p) k).1
        = CacheView.noneV) ∧
    (alookup (getCacheState (t + cfg.staleTTL) (setCache cfg t c k p) k).2 k
        = Option.none) := by
  have hins : alookup (setCache cfg t c k p) k
      = Option.some ⟨p, t, t + cfg.cacheTTL, t + cfg.staleTTL⟩ :=
    alookup_ainsert_self c k _
  refine ⟨?_, ?_, ?_, ?_, ?_, ?_, ?_, ?_⟩
  · intro e
    constructor
    · exact getCacheState_fresh_inv
    · rintro ⟨halo, hf⟩
      rw [getCacheState_hit_fresh halo hf]
  · intro e
    constructor
    · exact getCacheState_stale_inv
    · rintro ⟨halo, hf, hs⟩
      rw [getCacheState_hit_stale halo hf hs]
  · constructor
    · exact getCacheState_noneV_inv
    · rintro (halo | ⟨e, halo, hf, hs⟩)
      · rw [getCacheState_miss halo]
      · rw [getCacheState_hit_expired halo hs hf]
  · intro e halo hs hfs
    rw [getCacheState_hit_expired halo hs (le_trans hfs hs)]
    exact ⟨rfl, alookup_aerase_self c k⟩
  · rw [getCacheState_hit_fresh hins (Nat.lt_add_of_pos_right h1)]
  · rw [getCacheState_hit_stale hins (Nat.le_refl (t + cfg.cacheTTL))
      (Nat.add_lt_add_left h2 t)]
  · rw [getCacheState_hit_expired hins (Nat.le_refl (t + cfg.staleTTL))
      (Nat.add_le_add_left (Nat.le_of_lt h2) t)]
  · rw [getCacheState_hit_expired hins (Nat.le_refl (t + cfg.staleTTL))
      (Nat.add_le_add_left (Nat.le_of_lt h2) t)]
    exact alookup_aerase_self (setCache cfg t c k p) k

/-- Witness for C4 at the default TTLs: stored at time 0, the entry is
    fresh at 0, stale at 60000 and gone at 300000. -/
theorem classify_three_state_witness :
    (getCacheState 0 (setCache ⟨60000, 300000⟩ 0 ([] : Cache Nat) "44-07" 9) "44-07").1
      = CacheView.fresh ⟨9, 0, 0 + 60000, 0 + 300000⟩ ∧
    (getCacheState (0 + 60000) (setCache ⟨60000, 300000⟩ 0 ([] : Cache Nat) "44-07" 9) "44-07").1
      = CacheView.stale ⟨9, 0, 0 + 60000, 0 + 300000⟩ ∧
    (getCacheState (0 + 300000) (setCache ⟨60000, 300000⟩ 0 ([] : Cache Nat) "44-07" 9) "44-07").1
      = CacheView.noneV :=
  ⟨(classify_three_state ⟨60000, 300000⟩ 0 [] "44-07" 9 0 (by decide) (by decide)).2.2.2.2.1,
   (classify_three_state ⟨60000, 300000⟩ 0 [] "44-07" 9 0 (by decide) (by decide)).2.2.2.2.2.1,
   (classify_three_state ⟨60000, 300000⟩ 0 [] "44-07" 9 0 (by decide) (by decide)).2.2.2.2.2.2.1⟩

/-! ## Cache entry invariant (claim C7) -/

/-- Every entry of the cache has its fresh window inside the stale
    window. -/
def EntryInv {α : Type} (c : Cache α) : Prop :=
  ∀ (k : String) (e : CacheEntry α),
    alookup c k = Option.some e → e.freshUntil ≤ e.staleUntil

theorem entryInv_aerase {α : Type} {c : Cache α} (h : EntryInv c) (k : String) :
    EntryInv (aerase c k) :=
  fun k2 e he => h k2 e (alookup_aerase_sub c k k2 e he)

theorem alookup_ainsert_cases {γ : Type} (m : List (String × γ)) (k k2 : String)
    (v w : γ) (h : alookup (ainsert m k v) k2 = Option.some w) :
    w = v ∨ alookup m k2 = Option.some w := by
  by_cases hk : k2 = k
  · subst hk
    rw [alookup_ainsert_self] at h
    exact Or.inl (Option.some.inj h).symm
  · rw [alookup_ainsert_other m k k2 v hk] at h
    exact Or.inr h

theorem entryInv_setCache {α : Type} {cfg : Config}
    (httl : cfg.cacheTTL ≤ cfg.staleTTL) {c : Cache α} (h : EntryInv c)
    (now : Nat) (k : String) (p : α) :
    EntryInv (setCache cfg now c k p) := by
  intro k2 e he
  rcases alookup_ainsert_cases c k k2 _ e he with he2 | he2
  · subst he2
    exact Nat.add_le_add_left httl now
  · exact h k2 e he2

theorem entryInv_getCacheState {α : Type} {c : Cache α} (h : EntryInv c)
    (now : Nat) (k : String) :
    EntryInv (getCacheState now c k).2 := by
  rcases halo : alookup c k with _ | e0
  · rw [getCacheState_miss halo]
    exact h
  · rcases Nat.lt_or_ge now e0.freshUntil with hf | hf
    · rw [getCacheState_hit_fresh halo hf]
      exact h
    · rcases Nat.lt_or_ge now e0.staleUntil with hs | hs
      · rw [getCacheState_hit_stale halo hf hs]
        exact h
      · rw [getCacheState_hit_expired halo hs hf]
        exact entryInv_aerase h k

theorem ensureRefresh_cache {α : Type} (limit : JSNum) (block : String)
    (s : SysState α) : ((ensureRefresh limit block s).2).cache = s.cache := by
  rcases halo : alookup s.pending block with _ | id <;>
    simp [ensureRefresh, halo]

theorem entryInv_getFastResult {α : Type} {cfg : Config}
    (httl : cfg.cacheTTL ≤ cfg.staleTTL) (limit : JSNum) (now : Nat)
    (block : String) (race : RaceOutcome α) {s : SysState α}
    (h : EntryInv s.cache) :
    EntryInv ((getFastResult cfg limit now block race s).2).cache := by
  have h2 := entryInv_getCacheState h now block
  rcases hgc : getCacheState now s.cache block with ⟨v, c2⟩
  rw [hgc] at h2
  cases v with
  | fresh e =>
      simp only [getFastResult, hgc]
      exact h2
  | stale e =>
      simp only [getFastResult, hgc]
      rw [ensureRefresh_cache]
      exact h2
  | noneV =>
      cases race with
      | settledOk t p =>
          simp only [getFastResult, hgc, settleSuccess]
          rw [show (setCache cfg t ((ensureRefresh limit block
              { s with cache := c2 }).2).cache block p)
            = setCache cfg t c2 block p by rw [ensureRefresh_cache]]
          exact entryInv_setCache httl h2 t block p
      | settledErr msg =>
          simp only [getFastResult, hgc, settleFail]
          rw [ensureRefresh_cache]
          exact h2
      | deadline =>
          simp only [getFastResult, hgc]
          rw [ensureRefresh_cache]
          exact h2

theorem entryInv_poll {α : Type} {s : SysState α} (h : EntryInv s.cache)
    (now : Nat) (block : String) :
    EntryInv ((poll now block s).2).cache := by
  have h2 := entryInv_getCacheState h now block
  rcases hgc : getCacheState now s.cache block with ⟨v, c2⟩
  rw [hgc] at h2
  cases v <;> simp only [poll, hgc] <;> exact h2

theorem sysReach_entryInv {α : Type} {cfg : Config} {limit : JSNum}
    (httl : cfg.cacheTTL ≤ cfg.staleTTL) {s : SysState α}
    (h : SysReach cfg limit s) : EntryInv s.cache := by
  induction h with
  | init =>
      intro k e he
      simp [initSys, alookup] at he
  | step hs hstep ih =>
      cases hstep with
      | fast now block race s0 => exact entryInv_getFastResult httl _ _ _ _ ih
      | pollStep now block s0 => exact entryInv_poll ih now block
      | refresh block s0 =>
          rw [ensureRefresh_cache]
          exact ih
      | settleOk now block p s0 => exact entryInv_setCache httl ih now block p
      | settleErr block s0 => exact ih

/-- C7: store postcondition and entry invariant — `setCache` writes the
    entry `updatedAt = now`, `freshUntil = now + cacheTTL`,
    `staleUntil = now + staleTTL`, and (whenever the configured TTLs
    satisfy `cacheTTL ≤ staleTTL`) every entry ever present in a reachable
    cache satisfies `freshUntil ≤ staleUntil`. -/
theorem store_postcondition_entry_invariant {α : Type} (cfg : Config)
    (limit : JSNum) (s : SysState α)
    (httl : cfg.cacheTTL ≤ cfg.staleTTL) (h : SysReach cfg limit s) :
    (∀ (c : Cache α) (now : Nat) (k : String) (p : α),
        alookup (setCache cfg now c k p) k
          = Option.some ⟨p, now, now + cfg.cacheTTL, now + cfg.staleTTL⟩) ∧
    (∀ (k : String) (e : CacheEntry α),
        alookup s.cache k = Option.some e → e.freshUntil ≤ e.staleUntil) :=
  ⟨fun c now k p => alookup_ainsert_self c k ⟨p, now, now + cfg.cacheTTL, now + cfg.staleTTL⟩,
   sysReach_entryInv httl h⟩

/-- Witness for C7: the store postcondition at a concrete reachable
    state. -/
theorem store_postcondition_entry_invariant_witness :
    alookup (setCache (⟨60000, 300000⟩ : Config) 5 ([] : Cache Nat) "44-07" 3) "44-07"
      = Option.some ⟨3, 5, 5 + 60000, 5 + 300000⟩ :=
  (store_postcondition_entry_invariant ⟨60000, 300000⟩ (Option.some 2)
    (settleSuccess ⟨60000, 300000⟩ (Option.some 2) 5 "44-07" 3 initSys)
    (by decide)
    (SysReach.step SysReach.init (SysStep.settleOk 5 "44-07" 3 initSys))).1
    [] 5 "44-07" 3

/-! ## Refresh coalescer and responder claims C1, C3, C5, C6, C9 -/

theorem ensureRefresh_fresh_submit {α : Type} (limit : JSNum) (block : String)
    (s : SysState α) (h2 : alookup s.pending block = Option.none) :
    ((ensureRefresh limit block s).2).qs.submitLog
      = s.qs.submitLog ++ [(s.nextId, block)] ∧
    alookup ((ensureRefresh limit block s).2).pending block
      = Option.some s.nextId := by
  constructor
  · simp only [ensureRefresh, h2, enqueue, drainQueue]
    exact (drainAux_log limit _ _ _ _).2
  · simp only [ensureRefresh, h2]
    exact alookup_ainsert_self s.pending block s.nextId

theorem ensureRefresh_pending_isSome {α : Type} (limit : JSNum) (block : String)
    (s : SysState α) :
    (alookup ((ensureRefresh limit block s).2).pending block).isSome = true := by
  rcases halo : alookup s.pending block with _ | id
  · rw [(ensureRefresh_fresh_submit limit block s halo).2]
    rfl
  · simp [ensureRefresh, halo]

/-- C1: single-flight coalescing — while a pending handle exists for
    `block`, `ensureRefresh` returns that same promise id and leaves the
    state (in particular the job queue) completely unchanged, so repeated
    calls share one outcome; when no handle exists, exactly one job is
    submitted and its handle is registered. -/
theorem single_flight {α : Type} (limit : JSNum) (block : String)
    (s : SysState α) (id : Nat)
    (h : alookup s.pending block = Option.some id) :
    ensureRefresh limit block s = (id, s) ∧
    ensureRefresh limit block ((ensureRefresh limit block s).2)
      = ensureRefresh limit block s ∧
    (∀ s2 : SysState α, alookup s2.pending block = Option.none →
        ((ensureRefresh limit block s2).2).qs.submitLog
          = s2.qs.submitLog ++ [(s2.nextId, block)] ∧
        alookup ((ensureRefresh limit block s2).2).pending block
          = Option.some s2.nextId) := by
  have h1 : ensureRefresh limit block s = (id, s) := by
    simp [ensureRefresh, h]
  refine ⟨h1, ?_, fun s2 h2 => ensureRefresh_fresh_submit limit block s2 h2⟩
  rw [h1]
  exact h1

/-- Witness for C1 at a concrete state with a live handle. -/
theorem single_flight_witness :
    ensureRefresh (Option.some 2) "44-07"
        (⟨[], [("44-07", 5)], ⟨[], 1, [(5, "44-07")], [(5, "44-07")]⟩, 6⟩ : SysState Nat)
      = (5, ⟨[], [("44-07", 5)], ⟨[], 1, [(5, "44-07")], [(5, "44-07")]⟩, 6⟩) :=
  (single_flight (Option.some 2) "44-07" _ 5 (by decide)).1

theorem poll_after_settleSuccess {α : Type} (cfg : Config) (limit : JSNum)
    (t : Nat) (block : String) (p : α) (s2 : SysState α) (t2 : Nat)
    (h : t2 < t + cfg.cacheTTL) :
    (poll t2 block (settleSuccess cfg limit t block p s2)).1
      = PollResult.ready p false (t2 - t) := by
  have hins : alookup (settleSuccess cfg limit t block p s2).cache block
      = Option.some ⟨p, t, t + cfg.cacheTTL, t + cfg.staleTTL⟩ :=
    alookup_ainsert_self s2.cache block _
  simp [poll, getCacheState_hit_fresh hins h]

/-- C3: deadline-bound absent-key path — with no usable entry,
    `getFastResult` races the (never-cancelled) refresh against the
    deadline: a refresh that settles first yields
    `ready, cached, stale = false, ageMs = 0` with the fresh payload or
    propagates its failure; an elapsed deadline yields `pending` with
    `retryAfterMs = 1200` while the refresh handle stays live, and once
    the refresh later succeeds the store is populated so a poll inside
    the fresh window observes the payload. -/
theorem deadline_none_path {α : Type} (cfg : Config) (limit : JSNum)
    (now : Nat) (block : String) (s : SysState α)
    (h : (getCacheState now s.cache block).1 = CacheView.noneV) :
    (∀ (t : Nat) (p : α),
        getFastResult cfg limit now block (RaceOutcome.settledOk t p) s
          = (Except.ok (FastResult.ready p false false 0),
             settleSuccess cfg limit t block p
               ((ensureRefresh limit block
                  { s with cache := (getCacheState now s.cache block).2 }).2))) ∧
    (∀ msg : String,
        getFastResult cfg limit now block (RaceOutcome.settledErr msg) s
          = (Except.error msg,
             settleFail limit block
               ((ensureRefresh limit block
                  { s with cache := (getCacheState now s.cache block).2 }).2))) ∧
    (getFastResult cfg limit now block RaceOutcome.deadline s
        = (Except.ok (FastResult.pendingR 1200),
           (ensureRefresh limit block
              { s with cache := (getCacheState now s.cache block).2 }).2)) ∧
    ((alookup ((ensureRefresh limit block
        { s with cache := (getCacheState now s.cache block).2 }).2).pending
          block).isSome = true) ∧
    (∀ (s2 : SysState α) (t : Nat) (p : α) (t2 : Nat), t2 < t + cfg.cacheTTL →
        (poll t2 block (settleSuccess cfg limit t block p s2)).1
          = PollResult.ready p false (t2 - t)) := by
  rcases hgc : getCacheState now s.cache block with ⟨v, c2⟩
  rw [hgc] at h
  simp only at h
  subst h
  refine ⟨?_, ?_, ?_, ?_,
    fun s2 t p t2 ht2 => poll_after_settleSuccess cfg limit t block p s2 t2 ht2⟩
  · intro t p
    simp [getFastResult, hgc]
  · intro msg
    simp [getFastResult, hgc]
  · simp [getFastResult, hgc]
  · exact ensureRefresh_pending_isSome limit block _

/-- Witness for C3: an empty cache, deadline elapsing first, at concrete
    inputs. -/
theorem deadline_none_path_witness :
    getFastResult (⟨60000, 300000⟩ : Config) (Option.some 2) 0 "44-07"
        RaceOutcome.deadline (initSys : SysState Nat)
      = (Except.ok (FastResult.pendingR 1200),
         (ensureRefresh (Option.some 2) "44-07"
            { (initSys : SysState Nat) with
              cache := (getCacheState 0 (initSys : SysState Nat).cache "44-07").2 }).2) :=
  (deadline_none_path ⟨60000, 300000⟩ (Option.some 2) 0 "44-07" initSys
    (by decide)).2.2.1

/-- C5: stale path serves immediately with one background refresh — on a
    stale classification `getFastResult` returns the cached payload with
    `cached, stale = true` and `ageMs = now - updatedAt` regardless of the
    background refresh's fate (its failure is swallowed), fires
    `ensureRefresh` so a handle is live afterwards, submits no job when a
    handle already exists, and submits exactly one job when none does. -/
theorem stale_serves_immediately {α : Type} (cfg : Config) (limit : JSNum)
    (now : Nat) (block : String) (s : SysState α) (e : CacheEntry α)
    (h : (getCacheState now s.cache block).1 = CacheView.stale e) :
    (∀ race : RaceOutcome α,
        getFastResult cfg limit now block race s
          = (Except.ok (FastResult.ready e.payload true true (now - e.updatedAt)),
             (ensureRefresh limit block s).2)) ∧
    ((alookup ((ensureRefresh limit block s).2).pending block).isSome = true) ∧
    (∀ id : Nat, alookup s.pending block = Option.some id →
        (ensureRefresh limit block s).2 = s) ∧
    (alookup s.pending block = Option.none →
        ((ensureRefresh limit block s).2).qs.submitLog
          = s.qs.submitLog ++ [(s.nextId, block)]) := by
  obtain ⟨halo, hf, hs⟩ := getCacheState_stale_inv h
  have hgc := getCacheState_hit_stale halo hf hs
  refine ⟨?_, ensureRefresh_pending_isSome limit block s, ?_, ?_⟩
  · intro race
    simp [getFastResult, hgc]
  · intro id hid
    simp [ensureRefresh, hid]
  · intro h2
    exact (ensureRefresh_fresh_submit limit block s h2).1

/-- Witness for C5 at a concrete stale entry. -/
theorem stale_serves_immediately_witness :
    getFastResult (⟨60000, 300000⟩ : Config) (Option.some 2) 70000 "44-07"
        RaceOutcome.deadline
        (⟨[("44-07", ⟨9, 0, 60000, 300000⟩)], [], ⟨[], 0, [], []⟩, 0⟩ : SysState Nat)
      = (Except.ok (FastResult.ready 9 true true 70000),
         (ensureRefresh (Option.some 2) "44-07"
            (⟨[("44-07", ⟨9, 0, 60000, 300000⟩)], [], ⟨[], 0, [], []⟩, 0⟩ : SysState Nat)).2) :=
  (stale_serves_immediately ⟨60000, 300000⟩ (Option.some 2) 70000 "44-07"
    _ ⟨9, 0, 60000, 300000⟩ (by decide)).1 RaceOutcome.deadline

/-- C6: failure atomicity of refresh — a failed settlement writes no
    entry and leaves the cache identical, removes the pending handle (as
    does a successful settlement), and an existing entry stays retrievable
    by `poll` until its own `staleUntil` passes, with the stale flag set
    exactly outside the fresh window. -/
theorem refresh_failure_atomicity {α : Type} (cfg : Config) (limit : JSNum)
    (block : String) (s : SysState α) :
    (settleFail limit block s).cache = s.cache ∧
    alookup (settleFail limit block s).pending block = Option.none ∧
    (∀ (now : Nat) (p : α),
        alookup (settleSuccess cfg limit now block p s).pending block
          = Option.none) ∧
    (∀ e : CacheEntry α, alookup s.cache block = Option.some e →
        ∀ t2 : Nat, t2 < e.staleUntil →
          (poll t2 block (settleFail limit block s)).1
            = PollResult.ready e.payload (!decide (t2 < e.freshUntil))
                (t2 - e.updatedAt)) := by
  refine ⟨rfl, alookup_aerase_self s.pending block,
    fun now p => alookup_aerase_self s.pending block, ?_⟩
  intro e he t2 hs
  have hce : alookup (settleFail limit block s).cache block = Option.some e := he
  rcases Nat.lt_or_ge t2 e.freshUntil with hf | hf
  · rw [show (poll t2 block (settleFail limit block s)).1
        = PollResult.ready e.payload false (t2 - e.updatedAt) by
      simp [poll, getCacheState_hit_fresh hce hf]]
    simp [hf]
  · rw [show (poll t2 block (settleFail limit block s)).1
        = PollResult.ready e.payload true (t2 - e.updatedAt) by
      simp [poll, getCacheState_hit_stale hce hf hs]]
    simp [Nat.not_lt.2 hf]

/-- Witness for C6: a failed refresh for a stale key at concrete inputs:
    the cache is unchanged and the entry is still served stale. -/
theorem refresh_failure_atomicity_witness :
    (settleFail (Option.some 2) "44-07"
        (⟨[("44-07", ⟨9, 0, 60000, 300000⟩)], [("44-07", 0)],
          ⟨[], 1, [(0, "44-07")], [(0, "44-07")]⟩, 1⟩ : SysState Nat)).cache
      = [("44-07", ⟨9, 0, 60000, 300000⟩)] ∧
    (poll 70000 "44-07" (settleFail (Option.some 2) "44-07"
        (⟨[("44-07", ⟨9, 0, 60000, 300000⟩)], [("44-07", 0)],
          ⟨[], 1, [(0, "44-07")], [(0, "44-07")]⟩, 1⟩ : SysState Nat))).1
      = PollResult.ready 9 (!decide (70000 < 60000)) (70000 - 0) :=
  ⟨(refresh_failure_atomicity ⟨60000, 300000⟩ (Option.some 2) "44-07" _).1,
   (refresh_failure_atomicity ⟨60000, 300000⟩ (Option.some 2) "44-07"
      (⟨[("44-07", ⟨9, 0, 60000, 300000⟩)], [("44-07", 0)],
        ⟨[], 1, [(0, "44-07")], [(0, "44-07")]⟩, 1⟩ : SysState Nat)).2.2.2
      ⟨9, 0, 60000, 300000⟩ (by decide) 70000 (by decide)⟩

/-- C9: polling accessor — `poll` never touches the pending map, the job
    queue or the id counter; an unexpired entry is served `ready` with the
    stale flag and `ageMs = now - updatedAt`; with no unexpired entry it
    reports still-processing exactly when a pending handle is live, and
    not-found otherwise. -/
theorem poll_accessor {α : Type} (now : Nat) (block : String) (s : SysState α) :
    ((poll now block s).2.pending = s.pending ∧
     (poll now block s).2.qs = s.qs ∧
     (poll now block s).2.nextId = s.nextId) ∧
    (∀ e : CacheEntry α, (getCacheState now s.cache block).1 = CacheView.fresh e →
        (poll now block s).1
          = PollResult.ready e.payload false (now - e.updatedAt)) ∧
    (∀ e : CacheEntry α, (getCacheState now s.cache block).1 = CacheView.stale e →
        (poll now block s).1
          = PollResult.ready e.payload true (now - e.updatedAt)) ∧
    ((getCacheState now s.cache block).1 = CacheView.noneV →
        (poll now block s).1
          = if (alookup s.pending block).isSome then PollResult.stillProcessing
            else PollResult.notFound) := by
  rcases hgc : getCacheState now s.cache block with ⟨v, c2⟩
  cases v with
  | fresh e0 =>
      refine ⟨by simp [poll, hgc], ?_, ?_, ?_⟩
      · intro e h
        simp at h
        subst h
        simp [poll, hgc]
      · intro e h
        simp at h
      · intro h
        simp at h
  | stale e0 =>
      refine ⟨by simp [poll, hgc], ?_, ?_, ?_⟩
      · intro e h
        simp at h
      · intro e h
        simp at h
        subst h
        simp [poll, hgc]
      · intro h
        simp at h
  | noneV =>
      refine ⟨by simp [poll, hgc], ?_, ?_, ?_⟩
      · intro e h
        simp at h
      · intro e h
        simp at h
      · intro h
        simp [poll, hgc]

/-- Witness for C9: polling a missing key with a live handle reports
    still-processing. -/
theorem poll_accessor_witness :
    (poll 0 "44-07"
        (⟨[], [("44-07", 0)], ⟨[], 1, [(0, "44-07")], [(0, "44-07")]⟩, 1⟩
          : SysState Nat)).1
      = if (alookup ([("44-07", 0)] : List (String × Nat)) "44-07").isSome
        then PollResult.stillProcessing else PollResult.notFound :=
  (poll_accessor 0 "44-07"
    (⟨[], [("44-07", 0)], ⟨[], 1, [(0, "44-07")], [(0, "44-07")]⟩, 1⟩
      : SysState Nat)).2.2.2 (by decide)
